import Mathlib

/-!
Verification development for the wangle core: a shallow embedding of
`PriorityLifoSemMPMCQueue` (src/unnamed/part_001), `ConnectionManager`
(src/wangle/channel/Pipeline.h, second part), the `Pipeline` template
declarations (src/wangle/channel/Pipeline.h, first part) and the
`LengthFieldPrepender` handler (src/unnamed/part_000), together with
theorems settling the specification claims about them.

Machine integers are modelled as `Nat`/`Int` (no overflow is reachable in
any claim's range); durations in milliseconds are `Nat`; fallible
operations return `Except`/`Option`. Stateful classes become explicit
state records with pure transition functions, and the callbacks a method
fires become fields of an effect record returned beside the new state.
-/

/-- Decidable equality for `Except`, needed to evaluate enqueue results
on concrete inputs. -/
instance instDecidableEqExcept {e a : Type} [DecidableEq e] [DecidableEq a] :
    DecidableEq (Except e a) := fun x y =>
  match x, y with
  | Except.ok v, Except.ok w =>
    if h : v = w then Decidable.isTrue (by rw [h])
    else Decidable.isFalse (by simp [h])
  | Except.error v, Except.error w =>
    if h : v = w then Decidable.isTrue (by rw [h])
    else Decidable.isFalse (by simp [h])
  | Except.ok _, Except.error _ => Decidable.isFalse (by simp)
  | Except.error _, Except.ok _ => Decidable.isFalse (by simp)

namespace PriorityLifoSemMPMCQueue

/-- Errors an enqueue can raise: the `throw std::runtime_error` when the
target bucket's `MPMCQueue::write` fails (queue full), and the `CHECK`
on the computed bucket index. -/
inductive QueueError where
  | queueFull
  | checkFailed
deriving DecidableEq, Repr

/-- State of a `PriorityLifoSemMPMCQueue<T>`: per-bucket bounded FIFO
queues (`queues_`, index 0 = lowest priority; list front = oldest item,
matching `MPMCQueue` read order) plus the `LifoSem` count (`sem_`).
Every bucket shares the single `capacity` given to the constructor. -/
structure PQState (T : Type) where
  capacity : Nat
  buckets : List (List T)
  sem : Nat
deriving DecidableEq, Repr

/-- Constructor: `numPriorities` empty buckets, each of capacity
`capacity`; the semaphore starts at 0. -/
def init (T : Type) (numPriorities : Nat) (capacity : Nat) : PQState T :=
  { capacity := capacity
    buckets := List.replicate numPriorities []
    sem := 0 }

/-- Mirror of `getNumPriorities()`: `queues_.size()`. -/
def getNumPriorities {T : Type} (s : PQState T) : Nat :=
  s.buckets.length

/-- Bucket selection of `addWithPriority`:
`int mid = getNumPriorities() / 2;` then
`priority < 0 ? max(0, mid + priority) : min(getNumPriorities() - 1, mid + priority)`
computed over `Int` as the C++ does over `int`. -/
def bucketFor (n : Nat) (priority : Int) : Int :=
  let mid : Int := (n : Int) / 2
  if priority < 0 then max 0 (mid + priority)
  else min ((n : Int) - 1) (mid + priority)

/-- Mirror of `addWithPriority(item, priority)`: pick the bucket, `CHECK`
the index, attempt the bounded write (fails with `queueFull` when the
bucket already holds `capacity` items), then `sem_.post()`. -/
def addWithPriority {T : Type} (s : PQState T) (item : T) (priority : Int) :
    Except QueueError (PQState T) :=
  let q := bucketFor s.buckets.length priority
  if hq : 0 ≤ q ∧ q.toNat < s.buckets.length then
    let b := s.buckets.get ⟨q.toNat, hq.2⟩
    if b.length < s.capacity then
      Except.ok { s with
        buckets := s.buckets.set q.toNat (b ++ [item])
        sem := s.sem + 1 }
    else
      Except.error QueueError.queueFull
  else
    Except.error QueueError.checkFailed

/-- Mirror of `add(item)`: `addWithPriority(item, Executor::MID_PRI)`
with `MID_PRI = 0`. -/
def add {T : Type} (s : PQState T) (item : T) : Except QueueError (PQState T) :=
  addWithPriority s item 0

/-- One reverse scan of `take()`'s inner `for` loop over the bucket
vector: try the highest-index bucket first (`rbegin`), popping the front
of the first nonempty bucket found. `none` means every bucket was empty
on this scan. -/
def takeScan {T : Type} : List (List T) → Option (T × List (List T))
  | [] => none
  | b :: rest =>
    match takeScan rest with
    | some (x, rest1) => some (x, b :: rest1)
    | none =>
      match b with
      | [] => none
      | x :: xs => some (x, xs :: rest)

/-- Mirror of `take()` in the interleaving-free (sequential) semantics: a
successful scan returns the item without touching `sem_`; if every
bucket is empty the thread blocks in `sem_.wait()` with no state change
(`none`). -/
def take {T : Type} (s : PQState T) : Option (T × PQState T) :=
  match takeScan s.buckets with
  | some (x, bs) => some (x, { s with buckets := bs })
  | none => none

/-- Mirror of `size()`: the sum of all bucket sizes. -/
def size {T : Type} (s : PQState T) : Nat :=
  (s.buckets.map List.length).sum

/-- One operation of an interleaving-free history. -/
inductive PQOp (T : Type) where
  | add (x : T)
  | addPri (x : T) (p : Int)
  | takeOp
deriving DecidableEq, Repr

/-- Sequential application of one operation: a full bucket makes the
enqueue throw (state unchanged, no `post`), and a `take` on an all-empty
queue blocks (state unchanged). -/
def runOp {T : Type} (s : PQState T) (op : PQOp T) : PQState T :=
  match op with
  | PQOp.add x =>
    match add s x with
    | Except.ok s1 => s1
    | Except.error _ => s
  | PQOp.addPri x p =>
    match addWithPriority s x p with
    | Except.ok s1 => s1
    | Except.error _ => s
  | PQOp.takeOp =>
    match take s with
    | some (_, s1) => s1
    | none => s

/-- Sequential application of a whole history. -/
def runOps {T : Type} (s : PQState T) (ops : List (PQOp T)) : PQState T :=
  ops.foldl runOp s

/-- Queue holding 101 at priority +2 (bucket 4) and 202 at priority -2
(bucket 0), built by two enqueues into `init Nat 5 10`. -/
def pqA : PQState Nat := { capacity := 10, buckets := [[202], [], [], [], [101]], sem := 2 }

/-- The queue `pqA` after one `take` (the +2 item is gone). -/
def pqB : PQState Nat := { capacity := 10, buckets := [[202], [], [], [], []], sem := 2 }

/-- The queue `pqB` after one more `take` (now drained). -/
def pqC : PQState Nat := { capacity := 10, buckets := [[], [], [], [], []], sem := 2 }

end PriorityLifoSemMPMCQueue

namespace ConnectionManager

/-- Shutdown phase (`ShutdownAction`): notify pending shutdown first,
then close idle connections. -/
inductive ShutdownAction where
  | DRAIN1
  | DRAIN2
deriving DecidableEq, Repr

/-- A `ManagedConnection` as the manager observes it: an identity (the
node the intrusive list links), the `isBusy()` flag, the `getIdleTime()`
value in milliseconds, and the manager back-pointer
(`getConnectionManager()`, holding a manager id or null). -/
structure Conn where
  connId : Nat
  busy : Bool
  idleTime : Nat
  mgr : Option Nat
deriving DecidableEq, Repr

/-- State of a `ConnectionManager`: its own identity (what
`connection->getConnectionManager() == this` compares against), the
recency list `conns_` (front = most recently active), `idleIterator_`
as an index into that list (`conns.length` encodes `end()`), the drain
phase `action_`, the nominal `timeout_` and
`idleConnEarlyDropThreshold_` in milliseconds, and whether a `callback_`
is installed. -/
structure CMState where
  mgrId : Nat
  conns : List Conn
  idleIdx : Nat
  action : ShutdownAction
  timeoutMs : Nat
  earlyDrop : Nat
  hasCallback : Bool
deriving DecidableEq, Repr

/-- Mirror of the constructor: empty list, `idleIterator_ = conns_.end()`
(index 0 = length of the empty list), initial phase DRAIN1 (the member
default), and `idleConnEarlyDropThreshold_ = timeout_ / 2`. -/
def mkManager (mgrId : Nat) (timeoutMs : Nat) (hasCallback : Bool) : CMState :=
  { mgrId := mgrId
    conns := []
    idleIdx := 0
    action := ShutdownAction.DRAIN1
    timeoutMs := timeoutMs
    earlyDrop := timeoutMs / 2
    hasCallback := hasCallback }

/-- Mirror of `getNumConnections()`: `conns_.size()`. -/
def getNumConnections (s : CMState) : Nat :=
  s.conns.length

/-- Mirror of `addConnection(connection, timeout)` restricted to this
manager's own state (removal from a different previous manager mutates
that other manager, not this one): when the connection is not already
ours, `push_front` it and set its manager pointer; an intrusive
`push_front` leaves `idleIterator_` on its node (or on `end()`), so its
index grows by one. The returned flag records whether
`scheduleTimeout(connection, timeout_)` armed a timer (it is a no-op for
a zero `timeout_`). -/
def addConnection (s : CMState) (c : Conn) (timeout : Bool) : CMState × Bool :=
  let s1 :=
    if c.mgr = some s.mgrId then s
    else { s with
      conns := { c with mgr := some s.mgrId } :: s.conns
      idleIdx := s.idleIdx + 1 }
  (s1, timeout && decide (0 < s.timeoutMs))

/-- Observable side effects of one `removeConnection` call. -/
structure RemoveEffects where
  cancelledTimeout : Bool
  detachedFromManager : Bool
  firedOnConnectionRemoved : Bool
  firedOnEmpty : Bool
deriving DecidableEq, Repr

/-- Mirror of `removeConnection(connection)`: a no-op unless the
connection's manager pointer is this manager; otherwise cancel its
timeout, null its manager pointer, unlink its node (with
`if (it == idleIterator_) ++idleIterator_;` first, so in index terms the
iterator's index drops by one exactly when the erased node lay strictly
before it), then fire `onConnectionRemoved` and, when the list became
empty, `onEmpty` (both only when a callback is installed). -/
def removeConnection (s : CMState) (c : Conn) : CMState × RemoveEffects :=
  if c.mgr = some s.mgrId then
    let i := s.conns.findIdx (fun x => x.connId == c.connId)
    let newConns := s.conns.eraseIdx i
    let newIdle := if i < s.idleIdx then s.idleIdx - 1 else s.idleIdx
    ({ s with conns := newConns, idleIdx := newIdle },
     { cancelledTimeout := true
       detachedFromManager := true
       firedOnConnectionRemoved := s.hasCallback
       firedOnEmpty := s.hasCallback && decide (newConns.length = 0) })
  else
    (s, { cancelledTimeout := false
          detachedFromManager := false
          firedOnConnectionRemoved := false
          firedOnEmpty := false })

/-- Mirror of the `while` loop of `drainAllConnections()`: walk the given
suffix of `conns_` with the counters `numKept`/`numCleared`, stopping at
the list end or once `numKept + numCleared` reaches 64. In DRAIN1 each
visited connection gets `notifyPendingShutdown()` and NEITHER counter
moves; in DRAIN2 a busy connection bumps `numKept`, an idle one
`numCleared`, and each gets `closeWhenIdle()`. Returns the final
`(numKept, numCleared)` and the number of connections visited. -/
def drainVisit (action : ShutdownAction) :
    List Conn → Nat → Nat → Nat × Nat × Nat
  | [], numKept, numCleared => (numKept, numCleared, 0)
  | c :: rest, numKept, numCleared =>
    if numKept + numCleared < 64 then
      match action with
      | ShutdownAction.DRAIN1 =>
        let r := drainVisit action rest numKept numCleared
        (r.1, r.2.1, r.2.2 + 1)
      | ShutdownAction.DRAIN2 =>
        if c.busy then
          let r := drainVisit action rest (numKept + 1) numCleared
          (r.1, r.2.1, r.2.2 + 1)
        else
          let r := drainVisit action rest numKept (numCleared + 1)
          (r.1, r.2.1, r.2.2 + 1)
    else (numKept, numCleared, 0)

/-- Observable outcome of one `drainAllConnections()` sweep. -/
structure SweepStats where
  numKept : Nat
  numCleared : Nat
  visited : Nat
  rescheduled : Bool
deriving DecidableEq, Repr

/-- Start position of a sweep:
`idleIterator_ == conns_.end() ? conns_.begin() : idleIterator_`. -/
def sweepStart (s : CMState) : Nat :=
  if s.idleIdx = s.conns.length then 0 else s.idleIdx

/-- Mirror of `drainAllConnections()`: run the loop from `sweepStart`;
if the iterator stopped short of `end()`, store it in `idleIterator_`
and reschedule the loop callback (`runInLoop`); otherwise set
`action_ = DRAIN2` and stop. -/
def drainAllConnections (s : CMState) : CMState × SweepStats :=
  let start := sweepStart s
  let r := drainVisit s.action (s.conns.drop start) 0 0
  let itPos := start + r.2.2
  if itPos ≠ s.conns.length then
    ({ s with idleIdx := itPos },
     { numKept := r.1, numCleared := r.2.1, visited := r.2.2, rescheduled := true })
  else
    ({ s with action := ShutdownAction.DRAIN2 },
     { numKept := r.1, numCleared := r.2.1, visited := r.2.2, rescheduled := false })

/-- Mirror of `initiateGracefulShutdown(idleGrace)`: with a positive
grace period schedule the grace timer (recorded in the Bool) and leave
`action_` alone; with zero grace set `action_ = DRAIN2` at once. Either
way run the first `drainAllConnections()` sweep synchronously. -/
def initiateGracefulShutdown (s : CMState) (idleGrace : Nat) :
    (CMState × SweepStats) × Bool :=
  if 0 < idleGrace then
    (drainAllConnections s, true)
  else
    (drainAllConnections { s with action := ShutdownAction.DRAIN2 }, false)

/-- Repeated sweeps: run `drainAllConnections` and, as long as it
reschedules itself, run it again (the event loop doing `runInLoop`),
up to `fuel` sweeps. Returns the number of sweeps executed, the total
`numCleared` across them, and the final state. -/
def drainSweeps (fuel : Nat) (s : CMState) : Nat × Nat × CMState :=
  match fuel with
  | 0 => (0, 0, s)
  | fuel + 1 =>
    let r := drainAllConnections s
    if r.2.rescheduled then
      let rest := drainSweeps fuel r.1
      (rest.1 + 1, rest.2.1 + r.2.numCleared, rest.2.2)
    else
      (1, r.2.numCleared, r.1)

/-- Mirror of the `while` loop of `dropIdleConnections(num)`: as long as
fewer than `num` were dropped, stop at `conns_.end()` or at the first
connection whose `getIdleTime()` is zero or at most the early-drop
threshold; otherwise advance `idleIterator_` past the connection, call
its `timeoutExpired()` (recorded in the returned list) and keep going. -/
def dropIdleLoop : Nat → CMState → Nat × CMState × List Conn
  | 0, s => (0, s, [])
  | n + 1, s =>
    match s.conns[s.idleIdx]? with
    | none => (0, s, [])
    | some c =>
      if c.idleTime = 0 ∨ c.idleTime ≤ s.earlyDrop then (0, s, [])
      else
        let r := dropIdleLoop n { s with idleIdx := s.idleIdx + 1 }
        (r.1 + 1, r.2.1, c :: r.2.2)

/-- Mirror of `dropIdleConnections(num)`: disabled entirely (returns 0)
when `idleConnEarlyDropThreshold_ >= timeout_`; otherwise run the loop.
Returns the count dropped, the new state, and the dropped connections. -/
def dropIdleConnections (s : CMState) (num : Nat) : Nat × CMState × List Conn :=
  if s.timeoutMs ≤ s.earlyDrop then (0, s, [])
  else dropIdleLoop num s

/-- Suffix of the recency list the drop loop may drop for a given `num`:
the connections from `idleIterator_` onward, up to the first one whose
idle time is not strictly above the early-drop threshold, capped at
`num`. -/
def dropCandidates (s : CMState) (num : Nat) : List Conn :=
  ((s.conns.drop s.idleIdx).takeWhile
    (fun c => decide (s.earlyDrop < c.idleTime))).take num

/-- Manager with timeout 10ms, threshold 5ms and four idle connections
with idle times 9, 7, 3, 8ms, `idleIterator_` at the front. -/
def cmDropEx : CMState :=
  { mgrId := 0
    conns := [{ connId := 0, busy := false, idleTime := 9, mgr := some 0 },
              { connId := 1, busy := false, idleTime := 7, mgr := some 0 },
              { connId := 2, busy := false, idleTime := 3, mgr := some 0 },
              { connId := 3, busy := false, idleTime := 8, mgr := some 0 }]
    idleIdx := 0
    action := ShutdownAction.DRAIN1
    timeoutMs := 10
    earlyDrop := 5
    hasCallback := true }

/-- A fresh connection, as the 10-connection scenario adds them. -/
def cmConn (k : Nat) : Conn :=
  { connId := k, busy := false, idleTime := 0, mgr := none }

/-- Manager after `addConnection` of 10 fresh connections (ids 0..9);
each `push_front` leaves `idleIterator_` at `end()` (index 10). -/
def cmTen : CMState :=
  (List.range 10).foldl (fun s k => (addConnection s (cmConn k) false).1)
    (mkManager 1 100 true)

/-- Manager in DRAIN1 with one idle connection, `idleIterator_` at
`end()`. -/
def cmC6 : CMState :=
  { mgrId := 0
    conns := [{ connId := 0, busy := false, idleTime := 0, mgr := some 0 }]
    idleIdx := 1
    action := ShutdownAction.DRAIN1
    timeoutMs := 0
    earlyDrop := 0
    hasCallback := false }

/-- Sixty-five idle connections under a DRAIN1 manager, iterator at
`end()`. -/
def drain1Ex65 : CMState :=
  { mgrId := 0
    conns := (List.range 65).map
      (fun k => { connId := k, busy := false, idleTime := 0, mgr := some 0 })
    idleIdx := 65
    action := ShutdownAction.DRAIN1
    timeoutMs := 0
    earlyDrop := 0
    hasCallback := false }

/-- One hundred thirty idle connections under a DRAIN2 manager,
iterator at `end()`. -/
def drain2Idle130 : CMState :=
  { mgrId := 0
    conns := (List.range 130).map
      (fun k => { connId := k, busy := false, idleTime := 0, mgr := some 0 })
    idleIdx := 130
    action := ShutdownAction.DRAIN2
    timeoutMs := 0
    earlyDrop := 0
    hasCallback := false }

end ConnectionManager

namespace LengthFieldPrepender

/-- Big-endian (network byte order) encoding of `value` into exactly
`fieldLength` bytes, most significant byte first. -/
def encodeBE : Nat → Nat → List Nat
  | 0, _ => []
  | f + 1, v => encodeBE f (v / 256) ++ [v % 256]

/-- Little-endian encoding of `value` into exactly `fieldLength` bytes,
least significant byte first. -/
def encodeLE : Nat → Nat → List Nat
  | 0, _ => []
  | f + 1, v => v % 256 :: encodeLE f (v / 256)

/-- Big-endian decoding of a byte list back to a number. -/
def decodeBE (bytes : List Nat) : Nat :=
  bytes.foldl (fun a b => a * 256 + b) 0

/-- Failure of `write` when the computed length is out of range. -/
inductive EncodingError where
  | encodingError
deriving DecidableEq, Repr

/-- Modelled from the spec: the length `write` prepends, namely the
payload byte length plus the configured adjustment, plus the length
field's own size when `lengthIncludesLengthField` is set. -/
def computedLength (fieldLength : Nat) (adjustment : Int)
    (lengthIncludesLengthField : Bool) (payload : List Nat) : Int :=
  (payload.length : Int) + adjustment +
    (if lengthIncludesLengthField then (fieldLength : Int) else 0)

/-- Modelled from the spec: the body of `LengthFieldPrepender::write` is
not under src (src/unnamed/part_000 holds only the class declaration and
its documentation comment), so the length computation and framing are
taken from the specification: length = payload byte length + adjustment,
plus fieldLength when lengthIncludesLengthField is set; an EncodingError
when that length is negative or not representable in fieldLength bytes;
otherwise the fieldLength-byte length field in the configured byte order
followed by the unmodified payload. Bytes are `Nat` values below 256. -/
def write (fieldLength : Nat) (adjustment : Int)
    (lengthIncludesLengthField : Bool) (networkByteOrder : Bool)
    (payload : List Nat) : Except EncodingError (List Nat) :=
  let len : Int :=
    computedLength fieldLength adjustment lengthIncludesLengthField payload
  if len < 0 then Except.error EncodingError.encodingError
  else if (2 : Int) ^ (8 * fieldLength) ≤ len then
    Except.error EncodingError.encodingError
  else
    Except.ok
      ((if networkByteOrder then encodeBE fieldLength len.toNat
        else encodeLE fieldLength len.toNat) ++ payload)

end LengthFieldPrepender

namespace Pipeline

/-- A C++ type parameter as far as the `Pipeline<R, W>` declaration
distinguishes them: `folly::Unit` or anything else. -/
inductive CppType where
  | unitT
  | other (id : Nat)
deriving DecidableEq, Repr

/-- Mirror of `std::is_same<T, Unit>::value`. -/
def isSameUnit (t : CppType) : Bool :=
  t == CppType.unitT

/-- SFINAE availability of a member declared
`template <class T = D> typename std::enable_if<!std::is_same<T, Unit>::value, Ret>::type`:
calling it with the defaulted argument compiles exactly when the
condition holds, so the member is callable iff its default argument `D`
is not `Unit`. -/
def memberEnabled (defaultArg : CppType) : Bool :=
  !(isSameUnit defaultArg)

/-- The two type parameters a `Pipeline<R, W>` instantiation fixes. -/
structure Decl where
  R : CppType
  W : CppType
deriving DecidableEq, Repr

/-- Availability of `read(R msg)`: guarded with default `T = R`. -/
def readEnabled (p : Decl) : Bool := memberEnabled p.R

/-- Availability of `readEOF()`: guarded with default `T = R`. -/
def readEOFEnabled (p : Decl) : Bool := memberEnabled p.R

/-- Availability of `readException(e)`: guarded with default `T = R`. -/
def readExceptionEnabled (p : Decl) : Bool := memberEnabled p.R

/-- Availability of `transportActive()`: guarded with default `T = R`. -/
def transportActiveEnabled (p : Decl) : Bool := memberEnabled p.R

/-- Availability of `transportInactive()`: guarded with default `T = R`. -/
def transportInactiveEnabled (p : Decl) : Bool := memberEnabled p.R

/-- Availability of `write(W msg)`: guarded with default `T = W`. -/
def writeEnabled (p : Decl) : Bool := memberEnabled p.W

/-- Availability of `close()`: guarded with default `T = W`. -/
def closeEnabled (p : Decl) : Bool := memberEnabled p.W

end Pipeline

namespace PriorityLifoSemMPMCQueue

/-- Setting bucket `i` changes the total item count by the difference of
the bucket lengths. -/
theorem sum_map_length_set {T : Type} :
    ∀ (bs : List (List T)) (i : Nat) (v : List T), i < bs.length →
      ((bs.set i v).map List.length).sum + (bs.getD i []).length
        = (bs.map List.length).sum + v.length
  | [], i, v, h => absurd h (by simp)
  | b :: rest, 0, v, _ => by simp [List.set]; omega
  | b :: rest, i + 1, v, h => by
    have ih := sum_map_length_set rest i v (by simpa using h)
    simp only [List.set, List.map_cons, List.sum_cons, List.getD_cons_succ]
    omega

/-- A successful `takeScan` removes exactly one item from the buckets. -/
theorem takeScan_sum {T : Type} :
    ∀ (bs : List (List T)) (x : T) (bs1 : List (List T)),
      takeScan bs = some (x, bs1) →
      (bs1.map List.length).sum + 1 = (bs.map List.length).sum
  | [], x, bs1, h => by simp [takeScan] at h
  | b :: rest, x, bs1, h => by
    simp only [takeScan] at h
    cases hr : takeScan rest with
    | some p =>
      rw [hr] at h
      obtain ⟨y, rest1⟩ := p
      have ih := takeScan_sum rest y rest1 hr
      simp only [Option.some.injEq, Prod.mk.injEq] at h
      obtain ⟨hx, hbs⟩ := h
      subst hx; subst hbs
      simp only [List.map_cons, List.sum_cons]
      omega
    | none =>
      rw [hr] at h
      cases b with
      | nil => simp at h
      | cons z zs =>
        simp only [Option.some.injEq, Prod.mk.injEq] at h
        obtain ⟨hx, hbs⟩ := h
        subst hx; subst hbs
        simp only [List.map_cons, List.sum_cons, List.length_cons]
        omega

/-- A successful enqueue grows the total item count and the semaphore by
one each. -/
theorem addWithPriority_ok {T : Type} (s : PQState T) (item : T) (p : Int)
    (s1 : PQState T) (h : addWithPriority s item p = Except.ok s1) :
    size s1 = size s + 1 ∧ s1.sem = s.sem + 1 := by
  simp only [addWithPriority] at h
  split at h
  next hq =>
    split at h
    next hcap =>
      simp only [Except.ok.injEq] at h
      subst h
      constructor
      · have hb := sum_map_length_set s.buckets
          (bucketFor s.buckets.length p).toNat
          (s.buckets.get ⟨(bucketFor s.buckets.length p).toNat, hq.2⟩ ++ [item]) hq.2
        simp only [size]
        have hgd : s.buckets.getD (bucketFor s.buckets.length p).toNat [] =
            s.buckets.get ⟨(bucketFor s.buckets.length p).toNat, hq.2⟩ := by
          rw [List.getD_eq_getElem s.buckets [] hq.2]
          simp
        rw [hgd] at hb
        simp only [List.length_append, List.length_cons, List.length_nil] at hb
        omega
      · rfl
    next => exact absurd h (by simp)
  next => exact absurd h (by simp)

/-- A successful dequeue shrinks the total item count by one and leaves
the semaphore untouched (`take` performs no `sem_.wait()` when a bucket
read succeeds). -/
theorem take_some {T : Type} (s : PQState T) (x : T) (s1 : PQState T)
    (h : take s = some (x, s1)) :
    size s1 + 1 = size s ∧ s1.sem = s.sem := by
  unfold take at h
  cases hs : takeScan s.buckets with
  | some p =>
    rw [hs] at h
    obtain ⟨y, bs1⟩ := p
    simp only [Option.some.injEq, Prod.mk.injEq] at h
    obtain ⟨hx, hst⟩ := h
    subst hx; subst hst
    exact ⟨takeScan_sum s.buckets y bs1 hs, rfl⟩
  | none => rw [hs] at h; simp at h

/-- One sequential operation preserves the bound `size ≤ sem`. -/
theorem runOp_sem_ge {T : Type} (s : PQState T) (op : PQOp T)
    (h : size s ≤ s.sem) : size (runOp s op) ≤ (runOp s op).sem := by
  cases op with
  | add x =>
    simp only [runOp, add]
    cases ha : addWithPriority s x 0 with
    | ok s1 =>
      have := addWithPriority_ok s x 0 s1 ha
      dsimp only
      omega
    | error e => exact h
  | addPri x p =>
    simp only [runOp]
    cases ha : addWithPriority s x p with
    | ok s1 =>
      have := addWithPriority_ok s x p s1 ha
      dsimp only
      omega
    | error e => exact h
  | takeOp =>
    simp only [runOp]
    cases ht : take s with
    | some r =>
      obtain ⟨x, s1⟩ := r
      have := take_some s x s1 ht
      dsimp only
      omega
    | none => exact h

/-- The bound `size ≤ sem` is preserved by any sequential history. -/
theorem runOps_sem_ge {T : Type} :
    ∀ (ops : List (PQOp T)) (s : PQState T), size s ≤ s.sem →
      size (runOps s ops) ≤ (runOps s ops).sem
  | [], _, h => h
  | op :: ops, s, h =>
    runOps_sem_ge ops (runOp s op) (runOp_sem_ge s op h)

/-- Empty buckets make every scan fail. -/
theorem takeScan_eq_none {T : Type} :
    ∀ (bs : List (List T)), (∀ b ∈ bs, b = []) → takeScan bs = none
  | [], _ => rfl
  | b :: rest, h => by
    have hr := takeScan_eq_none rest (fun x hx => h x (List.mem_cons_of_mem b hx))
    have hb : b = [] := h b (List.mem_cons_self b rest)
    subst hb
    simp [takeScan, hr]

/-- A scan returns the front of the highest-index nonempty bucket and
pops exactly that bucket. -/
theorem takeScan_highest {T : Type} :
    ∀ (bs : List (List T)) (j : Nat), j < bs.length →
      bs.getD j [] ≠ [] →
      (∀ k, j < k → k < bs.length → bs.getD k [] = []) →
      ∃ x xs, bs.getD j [] = x :: xs ∧ takeScan bs = some (x, bs.set j xs)
  | [], j, hj, _, _ => absurd hj (by simp)
  | b :: rest, 0, hj, hne, hhigh => by
    have hrest : ∀ c ∈ rest, c = [] := by
      intro c hc
      obtain ⟨k, hk, hck⟩ := List.getElem_of_mem hc
      have := hhigh (k + 1) (Nat.succ_pos k) (by simpa using Nat.succ_lt_succ hk)
      rw [List.getD_cons_succ, List.getD_eq_getElem rest [] hk] at this
      rw [← hck]; exact this
    have hr := takeScan_eq_none rest hrest
    simp only [List.getD_cons_zero] at hne ⊢
    cases b with
    | nil => exact absurd rfl hne
    | cons x xs =>
      refine ⟨x, xs, rfl, ?_⟩
      simp [takeScan, hr, List.set]
  | b :: rest, j + 1, hj, hne, hhigh => by
    have ih := takeScan_highest rest j (by simpa using hj)
      (by simpa using hne)
      (by
        intro k hk hklen
        have := hhigh (k + 1) (Nat.succ_lt_succ hk) (by simpa using Nat.succ_lt_succ hklen)
        simpa using this)
    obtain ⟨x, xs, hbj, hscan⟩ := ih
    refine ⟨x, xs, by simpa using hbj, ?_⟩
    simp [takeScan, hscan, List.set]

end PriorityLifoSemMPMCQueue

namespace PriorityLifoSemMPMCQueue

/-- C2, amended: after any interleaving-free sequence of `add`,
`addWithPriority` and `take` operations on a fresh
`PriorityLifoSemMPMCQueue`, the counting semaphore's count is an upper
bound on (not necessarily equal to) the total number of items currently
resident across all priority buckets: a successful `take` returns as
soon as a bucket read succeeds and never performs `sem_.wait()`, so the
semaphore is not decremented and strict inequality arises. -/
theorem claim_C2_sem_ge_size {T : Type} (numPriorities capacity : Nat)
    (ops : List (PQOp T)) :
    size (runOps (init T numPriorities capacity) ops) ≤
      (runOps (init T numPriorities capacity) ops).sem := by
  apply runOps_sem_ge
  simp [size, init]

/-- C2, counterexample: on a fresh one-bucket queue, after `add 7` then a
successful `take`, the semaphore count is 1 while zero items are
resident, so the claimed equality of semaphore count and resident item
count is false. -/
theorem claim_C2_counterexample :
    (runOps (init Nat 1 10) [PQOp.add 7, PQOp.takeOp]).sem = 1 ∧
    size (runOps (init Nat 1 10) [PQOp.add 7, PQOp.takeOp]) = 0 ∧
    ¬ ((runOps (init Nat 1 10) [PQOp.add 7, PQOp.takeOp]).sem =
        size (runOps (init Nat 1 10) [PQOp.add 7, PQOp.takeOp])) := by
  decide

/-- C4: for a queue with at least one bucket, `addWithPriority(item, p)`
targets exactly bucket `clamp(mid + p, 0, numBuckets - 1)` with
`mid = numBuckets / 2` (integer division), this index is in range, and
the call enqueues there and bumps the semaphore when the bucket has
room, failing with the queue-full error when its capacity is
exhausted. -/
theorem claim_C4_addWithPriority_spec {T : Type} (s : PQState T) (item : T)
    (p : Int) (hn : 1 ≤ s.buckets.length) :
    bucketFor s.buckets.length p =
      max 0 (min ((s.buckets.length : Int) - 1)
        ((s.buckets.length : Int) / 2 + p)) ∧
    0 ≤ bucketFor s.buckets.length p ∧
    (bucketFor s.buckets.length p).toNat < s.buckets.length ∧
    addWithPriority s item p =
      (if (s.buckets.getD (bucketFor s.buckets.length p).toNat []).length <
          s.capacity then
        Except.ok { s with
          buckets := s.buckets.set (bucketFor s.buckets.length p).toNat
            ((s.buckets.getD (bucketFor s.buckets.length p).toNat []) ++ [item])
          sem := s.sem + 1 }
      else Except.error QueueError.queueFull) := by
  have hclamp : bucketFor s.buckets.length p =
      max 0 (min ((s.buckets.length : Int) - 1)
        ((s.buckets.length : Int) / 2 + p)) := by
    simp only [bucketFor]
    split <;> omega
  have h0 : 0 ≤ bucketFor s.buckets.length p := by
    simp only [bucketFor]
    split <;> omega
  have hlt : (bucketFor s.buckets.length p).toNat < s.buckets.length := by
    simp only [bucketFor] at h0 ⊢
    split <;> omega
  refine ⟨hclamp, h0, hlt, ?_⟩
  have hq : 0 ≤ bucketFor s.buckets.length p ∧
      (bucketFor s.buckets.length p).toNat < s.buckets.length := ⟨h0, hlt⟩
  simp only [addWithPriority]
  rw [dif_pos hq]
  rw [List.getD_eq_getElem s.buckets [] hlt]
  simp [List.get_eq_getElem]

/-- C4, witness: with 5 buckets, priorities -10, -1, 0, 1, 10 map to
buckets 0, 1, 2, 3, 4; a successful enqueue lands in the clamped bucket
and posts the semaphore; a full bucket yields the queue-full error. -/
theorem claim_C4_witness :
    bucketFor 5 (-10) = 0 ∧ bucketFor 5 (-1) = 1 ∧ bucketFor 5 0 = 2 ∧
    bucketFor 5 1 = 3 ∧ bucketFor 5 10 = 4 ∧
    addWithPriority (init Nat 5 2) 9 10 =
      Except.ok { capacity := 2, buckets := [[], [], [], [], [9]], sem := 1 } ∧
    addWithPriority
      { capacity := 1, buckets := ([[], [], [0], [], []] : List (List Nat)),
        sem := 1 } 7 0 = Except.error QueueError.queueFull := by
  have h1 := claim_C4_addWithPriority_spec (init Nat 5 2) 9 10 (by decide)
  have h2 := claim_C4_addWithPriority_spec
    { capacity := 1, buckets := ([[], [], [0], [], []] : List (List Nat)),
      sem := 1 } 7 0 (by decide)
  exact ⟨by decide, by decide, by decide, by decide, by decide,
    h1.2.2.2.trans (by decide), h2.2.2.2.trans (by decide)⟩

/-- C5: `take()` returns the front item of the highest-index nonempty
bucket (scanning from the highest priority downward) and pops exactly
that bucket, leaving the semaphore untouched. -/
theorem claim_C5_take_spec {T : Type} (s : PQState T) (j : Nat)
    (hj : j < s.buckets.length)
    (hne : s.buckets.getD j [] ≠ [])
    (hhigh : ∀ k, j < k → k < s.buckets.length → s.buckets.getD k [] = []) :
    ∃ x xs, s.buckets.getD j [] = x :: xs ∧
      take s = some (x, { s with buckets := s.buckets.set j xs }) := by
  obtain ⟨x, xs, hb, hscan⟩ := takeScan_highest s.buckets j hj hne hhigh
  exact ⟨x, xs, hb, by simp [take, hscan]⟩

/-- C5, witness: enqueue 101 at priority +2 and 202 at priority -2 into
a fresh 5-bucket queue; the first `take` returns the +2 item, the second
the -2 item. -/
theorem claim_C5_witness :
    addWithPriority (init Nat 5 10) 101 2 =
      Except.ok { capacity := 10, buckets := [[], [], [], [], [101]], sem := 1 } ∧
    addWithPriority
      { capacity := 10, buckets := ([[], [], [], [], [101]] : List (List Nat)),
        sem := 1 } 202 (-2) = Except.ok pqA ∧
    take pqA = some (101, pqB) ∧
    take pqB = some (202, pqC) := by
  refine ⟨by decide, by decide, ?_, ?_⟩
  · obtain ⟨x, xs, hb, ht⟩ := claim_C5_take_spec pqA 4 (by decide) (by decide)
      (by intro k hk1 hk2; simp only [pqA, List.length_cons, List.length_nil] at hk2; omega)
    have hbv : pqA.buckets.getD 4 [] = [101] := by decide
    rw [hbv] at hb
    injection hb with hx hxs
    subst hx; subst hxs
    exact ht.trans (by decide)
  · obtain ⟨x, xs, hb, ht⟩ := claim_C5_take_spec pqB 0 (by decide) (by decide)
      (by
        intro k hk1 hk2
        simp only [pqB, List.length_cons, List.length_nil] at hk2
        interval_cases k <;> decide)
    have hbv : pqB.buckets.getD 0 [] = [202] := by decide
    rw [hbv] at hb
    injection hb with hx hxs
    subst hx; subst hxs
    exact ht.trans (by decide)

end PriorityLifoSemMPMCQueue

namespace LengthFieldPrepender

/-- The big-endian encoding always occupies exactly `fieldLength`
bytes. -/
theorem encodeBE_length : ∀ (f v : Nat), (encodeBE f v).length = f
  | 0, _ => rfl
  | f + 1, v => by
    simp [encodeBE, encodeBE_length f (v / 256)]

/-- The big-endian encoding is faithful: decoding recovers every value
representable in `fieldLength` bytes. -/
theorem decodeBE_encodeBE : ∀ (f v : Nat), v < 256 ^ f →
    decodeBE (encodeBE f v) = v
  | 0, v, h => by
    simp only [Nat.pow_zero, Nat.lt_one_iff] at h
    simp [encodeBE, decodeBE, h]
  | f + 1, v, h => by
    have hdiv : v / 256 < 256 ^ f := by
      rw [Nat.div_lt_iff_lt_mul (by norm_num : (0 : Nat) < 256)]
      calc v < 256 ^ (f + 1) := h
        _ = 256 ^ f * 256 := by rw [Nat.pow_succ]
    have ih := decodeBE_encodeBE f (v / 256) hdiv
    simp only [encodeBE, decodeBE, List.foldl_append, List.foldl_cons,
      List.foldl_nil] at ih ⊢
    rw [ih]
    omega

/-- C8: in network byte order, `write` fails with an encoding error
exactly when the computed length (payload bytes + adjustment
[+ fieldLength when the flag is set]) is negative or not representable
in `fieldLength` bytes; otherwise it emits the `fieldLength`-byte
big-endian length field, which decodes back to the computed length,
followed by the unmodified payload. -/
theorem claim_C8_write_spec (f : Nat) (adj : Int) (inc : Bool)
    (payload : List Nat) :
    ((computedLength f adj inc payload < 0 ∨
        (2 : Int) ^ (8 * f) ≤ computedLength f adj inc payload) →
      write f adj inc true payload =
        Except.error EncodingError.encodingError) ∧
    (0 ≤ computedLength f adj inc payload →
      computedLength f adj inc payload < (2 : Int) ^ (8 * f) →
      write f adj inc true payload =
        Except.ok
          (encodeBE f (computedLength f adj inc payload).toNat ++ payload) ∧
      (encodeBE f (computedLength f adj inc payload).toNat).length = f ∧
      decodeBE (encodeBE f (computedLength f adj inc payload).toNat) =
        (computedLength f adj inc payload).toNat ∧
      (encodeBE f (computedLength f adj inc payload).toNat ++ payload).drop f
        = payload) := by
  constructor
  · intro h
    simp only [write]
    rcases h with h | h
    · rw [if_pos h]
    · have hpos : (0 : Int) < 2 ^ (8 * f) := by positivity
      rw [if_neg (by omega), if_pos h]
  · intro h0 hlt
    have hrep : (computedLength f adj inc payload).toNat < 256 ^ f := by
      have hcast : ((2 : Int) ^ (8 * f)) = (((256 : Nat) ^ f : Nat) : Int) := by
        push_cast
        rw [pow_mul]
        norm_num
      have htn : ((computedLength f adj inc payload).toNat : Int) =
          computedLength f adj inc payload := Int.toNat_of_nonneg h0
      have := hlt
      rw [hcast, ← htn] at this
      exact_mod_cast this
    refine ⟨?_, encodeBE_length f _, decodeBE_encodeBE f _ hrep, ?_⟩
    · simp only [write]
      rw [if_neg (by omega), if_neg (by omega)]
      simp
    · have := List.drop_left (encodeBE f (computedLength f adj inc payload).toNat) payload
      rwa [encodeBE_length f _] at this

/-- C8, witness: a 2-byte length field on a 12-byte payload with no
adjustment emits 0x00 0x0C then the payload, and with
lengthIncludesLengthField set emits 0x00 0x0E. -/
theorem claim_C8_witness :
    write 2 0 false true (List.replicate 12 72) =
      Except.ok ([0, 12] ++ List.replicate 12 72) ∧
    write 2 0 true true (List.replicate 12 72) =
      Except.ok ([0, 14] ++ List.replicate 12 72) := by
  have h1 := (claim_C8_write_spec 2 0 false (List.replicate 12 72)).2
    (by decide) (by decide)
  have h2 := (claim_C8_write_spec 2 0 true (List.replicate 12 72)).2
    (by decide) (by decide)
  exact ⟨h1.1.trans (by decide), h2.1.trans (by decide)⟩

end LengthFieldPrepender

namespace Pipeline

/-- C9: instantiating `Pipeline<R, W>` with `W = Unit` disables `write`
and `close` at the declaration level (their `enable_if` guards fail, so
any call is a compile-time error), and symmetrically `R = Unit` disables
`read`, `readEOF`, `readException`, `transportActive` and
`transportInactive`; with non-Unit parameters every member is
callable. -/
theorem claim_C9_unit_disables (p : Decl) :
    (p.W = CppType.unitT →
      writeEnabled p = false ∧ closeEnabled p = false) ∧
    (p.R = CppType.unitT →
      readEnabled p = false ∧ readEOFEnabled p = false ∧
      readExceptionEnabled p = false ∧ transportActiveEnabled p = false ∧
      transportInactiveEnabled p = false) ∧
    (p.W ≠ CppType.unitT →
      writeEnabled p = true ∧ closeEnabled p = true) ∧
    (p.R ≠ CppType.unitT →
      readEnabled p = true ∧ readEOFEnabled p = true ∧
      readExceptionEnabled p = true ∧ transportActiveEnabled p = true ∧
      transportInactiveEnabled p = true) := by
  obtain ⟨R, W⟩ := p
  cases R <;> cases W <;>
    simp [writeEnabled, closeEnabled, readEnabled, readEOFEnabled,
      readExceptionEnabled, transportActiveEnabled, transportInactiveEnabled,
      memberEnabled, isSameUnit]

/-- C9, witness: an outbound-Unit pipeline rejects write/close, an
inbound-Unit pipeline rejects the inbound entry points, and a non-Unit
direction stays callable. -/
theorem claim_C9_witness :
    writeEnabled { R := CppType.other 0, W := CppType.unitT } = false ∧
    closeEnabled { R := CppType.other 0, W := CppType.unitT } = false ∧
    readEnabled { R := CppType.unitT, W := CppType.other 0 } = false ∧
    transportActiveEnabled { R := CppType.unitT, W := CppType.other 0 } = false ∧
    readEnabled { R := CppType.other 0, W := CppType.unitT } = true := by
  refine ⟨?_, ?_, ?_, ?_, ?_⟩
  · exact ((claim_C9_unit_disables _).1 rfl).1
  · exact ((claim_C9_unit_disables _).1 rfl).2
  · exact ((claim_C9_unit_disables _).2.1 rfl).1
  · exact ((claim_C9_unit_disables _).2.1 rfl).2.2.2.1
  · exact ((claim_C9_unit_disables _).2.2.2 (by decide)).1

end Pipeline

namespace ConnectionManager


/-- The drop loop drops exactly the candidate prefix: it returns the
candidate count, advances `idleIterator_` past the dropped connections
and touches nothing else. -/
theorem dropIdleLoop_spec : ∀ (num : Nat) (s : CMState),
    dropIdleLoop num s =
      ((dropCandidates s num).length,
       { s with idleIdx := s.idleIdx + (dropCandidates s num).length },
       dropCandidates s num)
  | 0, s => by
    simp [dropIdleLoop, dropCandidates]
  | num + 1, s => by
    cases hget : s.conns[s.idleIdx]? with
    | none =>
      have hlen : s.conns.length ≤ s.idleIdx := by
        simpa using hget
      have hdrop : s.conns.drop s.idleIdx = [] := by
        simp [List.drop_eq_nil_iff, hlen]
      simp [dropIdleLoop, hget, dropCandidates, hdrop]
    | some c =>
      obtain ⟨hlt, hc⟩ := List.getElem?_eq_some.mp hget
      have hdrop : s.conns.drop s.idleIdx = c :: s.conns.drop (s.idleIdx + 1) := by
        rw [List.drop_eq_getElem_cons hlt, hc]
      by_cases hq : c.idleTime = 0 ∨ c.idleTime ≤ s.earlyDrop
      · have hpred : (decide (s.earlyDrop < c.idleTime)) = false := by
          simp only [decide_eq_false_iff_not]
          omega
        simp [dropIdleLoop, hget, hq, dropCandidates, hdrop, List.takeWhile_cons, hpred]
      · have hpred : (decide (s.earlyDrop < c.idleTime)) = true := by
          simp only [decide_eq_true_eq]
          omega
        have ih := dropIdleLoop_spec num { s with idleIdx := s.idleIdx + 1 }
        have hcand : dropCandidates s (num + 1) =
            c :: dropCandidates { s with idleIdx := s.idleIdx + 1 } num := by
          simp [dropCandidates, hdrop, List.takeWhile_cons, hpred]
        simp only [dropIdleLoop, hget]
        rw [if_neg hq, ih, hcand]
        simp only [List.length_cons]
        refine congrArg₂ Prod.mk rfl (congrArg₂ Prod.mk ?_ rfl)
        simp only [CMState.mk.injEq, and_true, true_and]
        omega

/-- C3: `dropIdleConnections(n)` walks forward from `idleIterator_`,
dropping exactly the prefix of connections (capped at `n`) whose idle
time strictly exceeds the early-drop threshold, stopping at the list end
or at the first connection at or below the threshold; it returns the
count actually dropped, never drops a connection whose idle time is at
most `timeout / 2` when the threshold has its constructed value
`timeout / 2`, and returns 0 regardless of `n` whenever the threshold is
at least the nominal timeout. -/
theorem claim_C3_dropIdleConnections_spec (s : CMState) (num : Nat) :
    (s.timeoutMs ≤ s.earlyDrop → dropIdleConnections s num = (0, s, [])) ∧
    (s.earlyDrop < s.timeoutMs →
      dropIdleConnections s num =
        ((dropCandidates s num).length,
         { s with idleIdx := s.idleIdx + (dropCandidates s num).length },
         dropCandidates s num)) ∧
    (∀ c ∈ (dropIdleConnections s num).2.2, s.earlyDrop < c.idleTime) ∧
    (s.earlyDrop = s.timeoutMs / 2 →
      ∀ c ∈ (dropIdleConnections s num).2.2, s.timeoutMs / 2 < c.idleTime) := by
  have hmem : ∀ c ∈ (dropIdleConnections s num).2.2, s.earlyDrop < c.idleTime := by
    intro c hc
    simp only [dropIdleConnections] at hc
    split at hc
    · simp at hc
    · rw [dropIdleLoop_spec num s] at hc
      simp only [dropCandidates] at hc
      have := List.mem_takeWhile_imp (List.take_subset num _ hc)
      simpa using this
  refine ⟨?_, ?_, hmem, ?_⟩
  · intro h
    simp [dropIdleConnections, h]
  · intro h
    simp only [dropIdleConnections]
    rw [if_neg (by omega)]
    exact dropIdleLoop_spec num s
  · intro he c hc
    have := hmem c hc
    omega

end ConnectionManager

namespace ConnectionManager


/-- C3, witness: on `cmDropEx` the loop drops the 9ms and 7ms
connections, stops at the 3ms one (idle time at most the threshold) and
returns 2; with the threshold raised to the timeout it returns 0. -/
theorem claim_C3_witness :
    (dropIdleConnections cmDropEx 10).1 = 2 ∧
    (dropIdleConnections cmDropEx 10).2.1.idleIdx = 2 ∧
    (dropIdleConnections cmDropEx 10).2.2 =
      [{ connId := 0, busy := false, idleTime := 9, mgr := some 0 },
       { connId := 1, busy := false, idleTime := 7, mgr := some 0 }] ∧
    dropIdleConnections { cmDropEx with earlyDrop := 10 } 10 =
      (0, { cmDropEx with earlyDrop := 10 }, []) := by
  have h := (claim_C3_dropIdleConnections_spec cmDropEx 10).2.1 (by decide)
  have h0 := (claim_C3_dropIdleConnections_spec
    { cmDropEx with earlyDrop := 10 } 10).1 (by decide)
  rw [h]
  exact ⟨by decide, by decide, by decide, h0⟩

/-- C7: for a connection whose manager pointer is this manager and which
sits in the recency list, `removeConnection` cancels its timeout, nulls
its manager pointer, erases exactly its node from the list, keeps
`idleIterator_` in bounds (its index drops by one exactly when the
removed node lay strictly before it, so an iterator on the removed node
ends up on the successor), fires `onConnectionRemoved`, and fires
`onEmpty` precisely when the last connection was removed. -/
theorem claim_C7_removeConnection_spec (s : CMState) (c : Conn)
    (hmgr : c.mgr = some s.mgrId)
    (hmem : ∃ x ∈ s.conns, x.connId = c.connId)
    (hidle : s.idleIdx ≤ s.conns.length)
    (hcb : s.hasCallback = true) :
    (removeConnection s c).2.cancelledTimeout = true ∧
    (removeConnection s c).2.detachedFromManager = true ∧
    (removeConnection s c).2.firedOnConnectionRemoved = true ∧
    ((removeConnection s c).2.firedOnEmpty = true ↔ s.conns.length = 1) ∧
    (removeConnection s c).1.conns =
      s.conns.eraseIdx (s.conns.findIdx (fun x => x.connId == c.connId)) ∧
    getNumConnections (removeConnection s c).1 = getNumConnections s - 1 ∧
    (removeConnection s c).1.idleIdx =
      (if s.conns.findIdx (fun x => x.connId == c.connId) < s.idleIdx then
        s.idleIdx - 1 else s.idleIdx) ∧
    (removeConnection s c).1.idleIdx ≤ (removeConnection s c).1.conns.length := by
  have hi : s.conns.findIdx (fun x => x.connId == c.connId) < s.conns.length := by
    apply List.findIdx_lt_length_of_exists
    obtain ⟨x, hx, he⟩ := hmem
    exact ⟨x, hx, by simp [he]⟩
  have hlen : (s.conns.eraseIdx
      (s.conns.findIdx (fun x => x.connId == c.connId))).length =
      s.conns.length - 1 := by
    rw [List.length_eraseIdx]
    simp [hi]
  simp only [removeConnection]
  rw [if_pos hmgr]
  refine ⟨rfl, rfl, by simp [hcb], ?_, rfl, ?_, rfl, ?_⟩
  · simp only [hcb, Bool.true_and, decide_eq_true_eq]
    rw [hlen]
    omega
  · simp only [getNumConnections]
    rw [hlen]
  · simp only [hlen]
    split <;> omega



/-- C7, witness: after adding 10 connections, removing the 5th added one
(id 4, the one `iterator_to` finds at position 5) leaves 9 connections,
a valid `idleIterator_`, fires `onConnectionRemoved` and does not fire
`onEmpty`. -/
theorem claim_C7_witness :
    getNumConnections cmTen = 10 ∧
    cmTen.idleIdx = 10 ∧
    getNumConnections (removeConnection cmTen { cmConn 4 with mgr := some 1 }).1 = 9 ∧
    (removeConnection cmTen { cmConn 4 with mgr := some 1 }).1.idleIdx ≤
      getNumConnections (removeConnection cmTen { cmConn 4 with mgr := some 1 }).1 ∧
    (removeConnection cmTen { cmConn 4 with mgr := some 1 }).2.firedOnConnectionRemoved
      = true ∧
    (removeConnection cmTen { cmConn 4 with mgr := some 1 }).2.firedOnEmpty = false := by
  have h := claim_C7_removeConnection_spec cmTen { cmConn 4 with mgr := some 1 }
    (by decide) (by decide) (by decide) (by decide)
  refine ⟨by decide, by decide, h.2.2.2.2.2.1.trans (by decide),
    ?_, h.2.2.1, ?_⟩
  · exact h.2.2.2.2.2.2.2
  · rw [Bool.eq_false_iff]
    intro hb
    exact absurd (h.2.2.2.1.mp hb) (by decide)

/-- C10: `removeConnection` on a connection whose manager pointer is not
this manager (another manager's connection, or nobody's) is a complete
no-op: the state is returned unchanged and no timeout cancellation or
callback fires. -/
theorem claim_C10_removeConnection_foreign_noop (s : CMState) (c : Conn)
    (h : c.mgr ≠ some s.mgrId) :
    removeConnection s c =
      (s, { cancelledTimeout := false, detachedFromManager := false,
            firedOnConnectionRemoved := false, firedOnEmpty := false }) := by
  simp only [removeConnection]
  rw [if_neg h]

/-- C10, witness: removing a connection owned by manager 7, or by
nobody, from `cmDropEx` (manager 0) changes nothing and fires
nothing. -/
theorem claim_C10_witness :
    removeConnection cmDropEx { connId := 99, busy := false, idleTime := 0, mgr := some 7 } =
      (cmDropEx, { cancelledTimeout := false, detachedFromManager := false,
                   firedOnConnectionRemoved := false, firedOnEmpty := false }) ∧
    removeConnection cmDropEx { connId := 0, busy := false, idleTime := 9, mgr := none } =
      (cmDropEx, { cancelledTimeout := false, detachedFromManager := false,
                   firedOnConnectionRemoved := false, firedOnEmpty := false }) := by
  exact ⟨claim_C10_removeConnection_foreign_noop cmDropEx _ (by decide),
    claim_C10_removeConnection_foreign_noop cmDropEx _ (by decide)⟩

end ConnectionManager

namespace ConnectionManager

/-- In DRAIN2 the loop never visits more than its remaining counter
budget `64 - (numKept + numCleared)`. -/
theorem drainVisit_drain2_le : ∀ (l : List Conn) (k c : Nat),
    (drainVisit ShutdownAction.DRAIN2 l k c).2.2 ≤ 64 - (k + c)
  | [], k, c => by simp [drainVisit]
  | x :: rest, k, c => by
    simp only [drainVisit]
    split
    · split
      · have := drainVisit_drain2_le rest (k + 1) c
        dsimp only
        omega
      · have := drainVisit_drain2_le rest k (c + 1)
        dsimp only
        omega
    · simp

/-- On an all-idle suffix, a DRAIN2 loop keeps nobody and clears one
connection per visit, exhausting either the counter budget or the
suffix. -/
theorem drainVisit_drain2_idle : ∀ (l : List Conn) (k c : Nat),
    (∀ x ∈ l, x.busy = false) →
    drainVisit ShutdownAction.DRAIN2 l k c =
      (k, c + min (64 - (k + c)) l.length, min (64 - (k + c)) l.length)
  | [], k, c, _ => by simp [drainVisit]
  | x :: rest, k, c, hidle => by
    have hx : x.busy = false := hidle x (List.mem_cons_self x rest)
    simp only [drainVisit, hx]
    split
    next hkc =>
      rw [drainVisit_drain2_idle rest k (c + 1)
        (fun y hy => hidle y (List.mem_cons_of_mem x hy))]
      simp only [Bool.false_eq_true, if_false, List.length_cons]
      refine congrArg₂ Prod.mk rfl (congrArg₂ Prod.mk ?_ ?_) <;> omega
    next hkc =>
      simp only [List.length_cons]
      refine congrArg₂ Prod.mk rfl (congrArg₂ Prod.mk ?_ ?_) <;> omega

/-- In DRAIN1 neither counter ever moves, so the loop visits the whole
remaining suffix. -/
theorem drainVisit_drain1 : ∀ (l : List Conn) (k c : Nat), k + c < 64 →
    drainVisit ShutdownAction.DRAIN1 l k c = (k, c, l.length)
  | [], k, c, _ => by simp [drainVisit]
  | x :: rest, k, c, h => by
    simp only [drainVisit, if_pos h]
    rw [drainVisit_drain1 rest k c h]
    simp

/-- A DRAIN2 sweep over an all-idle list, starting strictly inside the
list: with more than 64 connections left it clears exactly 64, stores
the iterator and reschedules; otherwise it clears the rest and stops. -/
theorem drain2_idle_sweep (s : CMState)
    (h2 : s.action = ShutdownAction.DRAIN2)
    (hidle : ∀ x ∈ s.conns, x.busy = false)
    (hlt : s.idleIdx < s.conns.length) :
    drainAllConnections s =
      (if s.idleIdx + 64 < s.conns.length then
        ({ s with idleIdx := s.idleIdx + 64 },
         { numKept := 0, numCleared := 64, visited := 64, rescheduled := true })
      else
        ({ s with action := ShutdownAction.DRAIN2 },
         { numKept := 0, numCleared := s.conns.length - s.idleIdx,
           visited := s.conns.length - s.idleIdx, rescheduled := false })) := by
  have hstart : sweepStart s = s.idleIdx := by
    simp only [sweepStart]
    rw [if_neg (by omega)]
  have hv := drainVisit_drain2_idle (s.conns.drop s.idleIdx) 0 0
    (fun x hx => hidle x (List.drop_subset _ _ hx))
  simp only [drainAllConnections, hstart, h2, hv, List.length_drop]
  by_cases hm : s.idleIdx + 64 < s.conns.length
  · rw [if_pos hm]
    have h64 : min (64 - (0 + 0)) (s.conns.length - s.idleIdx) = 64 := by omega
    rw [h64]
    rw [if_pos (by omega)]
  · rw [if_neg hm]
    have hrest : min (64 - (0 + 0)) (s.conns.length - s.idleIdx) =
        s.conns.length - s.idleIdx := by omega
    rw [hrest]
    rw [if_neg (by omega)]
    simp

/-- The first DRAIN2 sweep with the iterator at `end()` starts from the
list head: with more than 64 all-idle connections it clears 64 and
reschedules, otherwise it clears everything and stops. -/
theorem drain2_idle_sweep_from_end (s : CMState)
    (h2 : s.action = ShutdownAction.DRAIN2)
    (hidle : ∀ x ∈ s.conns, x.busy = false)
    (hend : s.idleIdx = s.conns.length) :
    drainAllConnections s =
      (if 64 < s.conns.length then
        ({ s with idleIdx := 64 },
         { numKept := 0, numCleared := 64, visited := 64, rescheduled := true })
      else
        ({ s with action := ShutdownAction.DRAIN2 },
         { numKept := 0, numCleared := s.conns.length,
           visited := s.conns.length, rescheduled := false })) := by
  have hstart : sweepStart s = 0 := by
    simp only [sweepStart]
    rw [if_pos hend]
  have hv := drainVisit_drain2_idle (s.conns.drop 0) 0 0
    (fun x hx => hidle x (List.drop_subset _ _ hx))
  simp only [drainAllConnections, hstart, h2, hv, List.length_drop]
  by_cases hm : 64 < s.conns.length
  · rw [if_pos hm]
    have h64 : min (64 - (0 + 0)) (s.conns.length - 0) = 64 := by omega
    rw [h64]
    rw [if_pos (by omega)]
  · rw [if_neg hm]
    have hrest : min (64 - (0 + 0)) (s.conns.length - 0) = s.conns.length := by
      omega
    rw [hrest]
    rw [if_neg (by omega)]
    simp

/-- Repeated DRAIN2 sweeps over an all-idle list, iterator strictly
inside: with `m` connections left past the iterator and enough fuel, the
loop runs exactly `ceil(m / 64)` sweeps and clears all `m`. -/
theorem drainSweeps_drain2_idle : ∀ (fuel : Nat) (s : CMState),
    s.action = ShutdownAction.DRAIN2 →
    (∀ x ∈ s.conns, x.busy = false) →
    s.idleIdx < s.conns.length →
    s.conns.length - s.idleIdx ≤ 64 * fuel →
    (drainSweeps fuel s).1 = (s.conns.length - s.idleIdx + 63) / 64 ∧
    (drainSweeps fuel s).2.1 = s.conns.length - s.idleIdx
  | 0, s, _, _, hlt, hfuel => by omega
  | fuel + 1, s, h2, hidle, hlt, hfuel => by
    have hs := drain2_idle_sweep s h2 hidle hlt
    by_cases hm : s.idleIdx + 64 < s.conns.length
    · rw [if_pos hm] at hs
      have ih := drainSweeps_drain2_idle fuel { s with idleIdx := s.idleIdx + 64 }
        h2 hidle
        (by show s.idleIdx + 64 < s.conns.length; omega)
        (by show s.conns.length - (s.idleIdx + 64) ≤ 64 * fuel; omega)
      have ih1 : (drainSweeps fuel { s with idleIdx := s.idleIdx + 64 }).1 =
          (s.conns.length - (s.idleIdx + 64) + 63) / 64 := ih.1
      have ih2 : (drainSweeps fuel { s with idleIdx := s.idleIdx + 64 }).2.1 =
          s.conns.length - (s.idleIdx + 64) := ih.2
      simp only [drainSweeps, hs, if_true]
      constructor
      · show (drainSweeps fuel { s with idleIdx := s.idleIdx + 64 }).1 + 1 =
          (s.conns.length - s.idleIdx + 63) / 64
        omega
      · show (drainSweeps fuel { s with idleIdx := s.idleIdx + 64 }).2.1 + 64 =
          s.conns.length - s.idleIdx
        omega
    · rw [if_neg hm] at hs
      simp only [drainSweeps, hs, Bool.false_eq_true, if_false]
      constructor
      · show (1 : Nat) = (s.conns.length - s.idleIdx + 63) / 64
        omega
      · trivial

end ConnectionManager

namespace ConnectionManager

/-- A sweep declines to reschedule exactly when its iterator reached the
end of the list. -/
theorem drain_rescheduled_iff (s : CMState) :
    (drainAllConnections s).2.rescheduled = false ↔
      sweepStart s + (drainAllConnections s).2.visited = s.conns.length := by
  simp only [drainAllConnections]
  split
  next hne => simp [hne]
  next hne => simp at hne; simp [hne]

/-- A rescheduling sweep leaves the phase untouched. -/
theorem drain_action_resched (s : CMState) :
    (drainAllConnections s).2.rescheduled = true →
      (drainAllConnections s).1.action = s.action := by
  simp only [drainAllConnections]
  split
  · intro _; rfl
  · intro h; simp at h

/-- A non-rescheduling sweep leaves the phase at DRAIN2. -/
theorem drain_action_done (s : CMState) :
    (drainAllConnections s).2.rescheduled = false →
      (drainAllConnections s).1.action = ShutdownAction.DRAIN2 := by
  simp only [drainAllConnections]
  split
  · intro h; simp at h
  · intro _; rfl

/-- A DRAIN1 sweep never stops early (its counters never move), so it
always reaches the end of the list and does not reschedule. -/
theorem drain1_not_resched (s : CMState)
    (hidle : s.idleIdx ≤ s.conns.length)
    (h1 : s.action = ShutdownAction.DRAIN1) :
    (drainAllConnections s).2.rescheduled = false := by
  have hstart : sweepStart s ≤ s.conns.length := by
    simp only [sweepStart]
    split <;> omega
  have hv := drainVisit_drain1 (s.conns.drop (sweepStart s)) 0 0 (by omega)
  have hlen : sweepStart s + (s.conns.drop (sweepStart s)).length =
      s.conns.length := by
    rw [List.length_drop]
    omega
  simp only [drainAllConnections, h1, hv]
  rw [if_neg (fun hh => hh hlen)]

/-- Whatever the entry phase, the state a sweep leaves behind is DRAIN2
as soon as the sweep terminates the loop, and is the unchanged phase
otherwise; combined with `drain1_not_resched`, any sweep from a valid
state ends with the field either still DRAIN2 or freshly set to it. -/
theorem drain_result_action (s : CMState)
    (hidle : s.idleIdx ≤ s.conns.length) :
    (drainAllConnections s).1.action = ShutdownAction.DRAIN2 := by
  cases ha : s.action with
  | DRAIN1 => exact drain_action_done s (drain1_not_resched s hidle ha)
  | DRAIN2 =>
    cases hr : (drainAllConnections s).2.rescheduled with
    | false => exact drain_action_done s hr
    | true => exact (drain_action_resched s hr).trans ha

/-- The grace timer is armed exactly when a positive grace period is
requested. -/
theorem initiate_sched (s : CMState) (g : Nat) :
    (initiateGracefulShutdown s g).2 = decide (0 < g) := by
  simp only [initiateGracefulShutdown]
  split
  next h => simp [h]
  next h => simp [h]

/-- After `initiateGracefulShutdown` returns, the phase is always
DRAIN2 — with zero grace it was set before the sweep, and otherwise the
initiating DRAIN1 sweep walks the whole list and flips it at the end. -/
theorem initiate_action (s : CMState) (g : Nat)
    (hidle : s.idleIdx ≤ s.conns.length) :
    (initiateGracefulShutdown s g).1.1.action = ShutdownAction.DRAIN2 := by
  simp only [initiateGracefulShutdown]
  split
  · exact drain_result_action s hidle
  · exact drain_result_action { s with action := ShutdownAction.DRAIN2 } hidle

/-- C6, amended: the sweep loop stops rescheduling itself exactly when a
sweep reaches the end of the connection list, whatever the phase at the
sweep's start; a rescheduling sweep leaves the phase unchanged, and a
terminating sweep leaves it DRAIN2. The phase flips to DRAIN2 either
immediately at initiation when no grace period is configured or when a
sweep reaches the list end — in particular the initiating sweep itself
reaches the end (a DRAIN1 sweep cannot stop early), so the phase is
DRAIN2 already when `initiateGracefulShutdown` returns, before any
grace-period timer fires; the timer is armed iff the grace period is
positive. -/
theorem claim_C6_drain_phase_spec (s : CMState) (g : Nat)
    (hidle : s.idleIdx ≤ s.conns.length) :
    ((drainAllConnections s).2.rescheduled = false ↔
      sweepStart s + (drainAllConnections s).2.visited = s.conns.length) ∧
    ((drainAllConnections s).2.rescheduled = true →
      (drainAllConnections s).1.action = s.action) ∧
    ((drainAllConnections s).2.rescheduled = false →
      (drainAllConnections s).1.action = ShutdownAction.DRAIN2) ∧
    (s.action = ShutdownAction.DRAIN1 →
      (drainAllConnections s).2.rescheduled = false) ∧
    ((initiateGracefulShutdown s g).2 = decide (0 < g)) ∧
    ((initiateGracefulShutdown s g).1.1.action = ShutdownAction.DRAIN2) :=
  ⟨drain_rescheduled_iff s, drain_action_resched s, drain_action_done s,
    fun h1 => drain1_not_resched s hidle h1, initiate_sched s g,
    initiate_action s g hidle⟩


/-- C6, counterexample: starting from DRAIN1 and initiating shutdown
with a positive (5ms) grace period, the phase is already DRAIN2 when
`initiateGracefulShutdown` returns — the grace timer was merely armed
and has not fired — and the initiating sweep, which began in phase
DRAIN1, already declined to reschedule; the claim's 'flips only at
zero-grace initiation or when the timer fires' and 'stops rescheduling
exactly when the end is reached while in phase DRAIN2' are both
false. -/
theorem claim_C6_counterexample :
    cmC6.action = ShutdownAction.DRAIN1 ∧
    (0 : Nat) < 5 ∧
    (initiateGracefulShutdown cmC6 5).2 = true ∧
    (initiateGracefulShutdown cmC6 5).1.1.action = ShutdownAction.DRAIN2 ∧
    (initiateGracefulShutdown cmC6 5).1.2.rescheduled = false := by
  decide

/-- C6, witness: with zero grace no timer is armed and the phase is
DRAIN2 immediately; with a positive grace period the phase is likewise
DRAIN2 when initiation returns. -/
theorem claim_C6_witness :
    (initiateGracefulShutdown cmDropEx 0).2 = false ∧
    (initiateGracefulShutdown cmDropEx 0).1.1.action = ShutdownAction.DRAIN2 ∧
    (initiateGracefulShutdown cmDropEx 7).1.1.action = ShutdownAction.DRAIN2 := by
  have h0 := claim_C6_drain_phase_spec cmDropEx 0 (by decide)
  have h7 := claim_C6_drain_phase_spec cmDropEx 7 (by decide)
  exact ⟨h0.2.2.2.2.1.trans (by decide), h0.2.2.2.2.2, h7.2.2.2.2.2⟩

end ConnectionManager

namespace ConnectionManager

/-- C1, amended: a `drainAllConnections` sweep visits at most 64
connections only in phase DRAIN2 — in DRAIN1 neither counter is
incremented, so a single sweep visits every connection from its start
position to the end of the list; the claim's ceiling bound does hold
for the zero-grace path: entering DRAIN2 immediately, with every
connection idle, `n >= 1` connections are cleared in exactly
`ceil(n / 64)` sweeps. -/
theorem claim_C1_drain_spec (s : CMState) (fuel : Nat) :
    (s.action = ShutdownAction.DRAIN2 →
      (drainAllConnections s).2.visited ≤ 64) ∧
    (s.action = ShutdownAction.DRAIN1 →
      (drainAllConnections s).2.visited = s.conns.length - sweepStart s) ∧
    ((∀ x ∈ s.conns, x.busy = false) → s.idleIdx = s.conns.length →
      1 ≤ s.conns.length → s.conns.length ≤ 64 * fuel →
      (drainSweeps fuel { s with action := ShutdownAction.DRAIN2 }).1 =
        (s.conns.length + 63) / 64 ∧
      (drainSweeps fuel { s with action := ShutdownAction.DRAIN2 }).2.1 =
        s.conns.length) := by
  refine ⟨?_, ?_, ?_⟩
  · intro h2
    have hb := drainVisit_drain2_le (s.conns.drop (sweepStart s)) 0 0
    simp only [drainAllConnections, h2]
    split <;> simpa using hb
  · intro h1
    have hv := drainVisit_drain1 (s.conns.drop (sweepStart s)) 0 0 (by omega)
    simp only [drainAllConnections, h1, hv]
    split <;> simp [List.length_drop]
  · intro hidle hend h1 hf
    cases fuel with
    | zero => exact absurd hf (by omega)
    | succ fuel =>
      have hs := drain2_idle_sweep_from_end
        { s with action := ShutdownAction.DRAIN2 } rfl hidle hend
      by_cases hm : 64 < s.conns.length
      · rw [if_pos hm] at hs
        have ih := drainSweeps_drain2_idle fuel
          { s with action := ShutdownAction.DRAIN2, idleIdx := 64 } rfl hidle
          (by show 64 < s.conns.length; omega)
          (by show s.conns.length - 64 ≤ 64 * fuel; omega)
        have ih1 : (drainSweeps fuel
            { s with action := ShutdownAction.DRAIN2, idleIdx := 64 }).1 =
            (s.conns.length - 64 + 63) / 64 := ih.1
        have ih2 : (drainSweeps fuel
            { s with action := ShutdownAction.DRAIN2, idleIdx := 64 }).2.1 =
            s.conns.length - 64 := ih.2
        simp only [drainSweeps, hs, if_true]
        constructor
        · show (drainSweeps fuel
              { s with action := ShutdownAction.DRAIN2, idleIdx := 64 }).1 + 1 =
            (s.conns.length + 63) / 64
          omega
        · show (drainSweeps fuel
              { s with action := ShutdownAction.DRAIN2, idleIdx := 64 }).2.1 + 64 =
            s.conns.length
          omega
      · rw [if_neg hm] at hs
        simp only [drainSweeps, hs, Bool.false_eq_true, if_false]
        constructor
        · show (1 : Nat) = (s.conns.length + 63) / 64
          omega
        · trivial


/-- C1, counterexample: in phase DRAIN1 a single sweep visits all 65
connections of `drain1Ex65` — more than 64 — because the DRAIN1 branch
increments neither `numKept` nor `numCleared`, so the 64-visit bound
does not hold 'regardless of the current phase'. -/
theorem claim_C1_counterexample :
    (drainAllConnections drain1Ex65).2.visited = 65 ∧
    ¬ ((drainAllConnections drain1Ex65).2.visited ≤ 64) := by
  decide


set_option maxRecDepth 100000 in
/-- C1, witness: 130 all-idle connections in DRAIN2 are cleared in
exactly `ceil(130 / 64) = 3` sweeps, and a DRAIN2 sweep visits at most
64. -/
theorem claim_C1_witness :
    (drainSweeps 3 { drain2Idle130 with action := ShutdownAction.DRAIN2 }).1 = 3 ∧
    (drainSweeps 3 { drain2Idle130 with action := ShutdownAction.DRAIN2 }).2.1 = 130 ∧
    (drainAllConnections drain2Idle130).2.visited ≤ 64 := by
  have h := claim_C1_drain_spec drain2Idle130 3
  have h3 := h.2.2 (by decide) (by decide) (by decide) (by decide)
  exact ⟨h3.1.trans (by decide), h3.2.trans (by decide), h.1 rfl⟩

end ConnectionManager
